import Mathlib

/-!
Verification of the Number Generation & Artifact Partitioning Engine
(`src/app.py` of the repository): a shallow embedding of the generation,
writing, partitioning and formatting code, with theorems settling the
specification's claims about it.

Conventions of the embedding:
* Python strings are Lean `String`s; Python string concatenation is `++`;
  `len(s.encode('utf-8'))` is `utf8Len`.
* A file on disk is modelled by its content; a line-oriented file by its
  `List String` of lines, each line carrying its terminator, exactly as
  Python's `readline`/`readlines` return them.  A possibly-missing file is
  an `Option`.
* Python's lexicographic string comparison (by code point) is `String`'s
  order (lexicographic on the character data by code point).
* The only floating-point arithmetic in the modelled code is
  `size /= 1024` in `_format_file_size`; division of an IEEE double by
  1024 is exact (an exponent shift), so for sizes below 2^53 the exact
  natural-number model used here coincides with the Python code.
-/

namespace PhoneGen

/-- Byte length of the UTF-8 encoding of a string: Python's
`len(s.encode('utf-8'))`. -/
def utf8Len (s : String) : Nat :=
  (s.data.map Char.utf8Size).sum

/-- Total byte size of a list of lines (each line already carries its
terminator). -/
def sizeLines (ls : List String) : Nat :=
  (ls.map utf8Len).sum

/-- Sequentially concatenating strings, as repeated `f.write`/`writelines`
calls produce a file's content. -/
def concatStrings (ls : List String) : String :=
  ls.foldl (· ++ ·) ""

/-- One row of the `phone_location` table as returned by
`DatabaseManager.query_phone_locations` (columns
`prefix, suffix, province, city, operator`); `pfx` stands for the
`prefix` column. -/
structure Location where
  pfx : String
  suffix : String
  province : String
  city : String
  operator : Int
deriving DecidableEq

/-- Python truthiness of an optional-string argument (`if suffix_4:`):
`None` and the empty string are falsy. -/
def isTruthy : Option String → Bool
  | none => false
  | some s => !(s == "")

/-- Embeds `str(last_four).zfill(4)` at the call site
`_generate_numbers_for_location`, where `last_four` ranges over
`range(10000)`: for `0 ≤ n ≤ 9999` this is exactly the four decimal
digits of `n`, zero-padded. -/
def zfill4 (n : Nat) : String :=
  ⟨[Nat.digitChar (n / 1000 % 10), Nat.digitChar (n / 100 % 10),
    Nat.digitChar (n / 10 % 10), Nat.digitChar (n % 10)]⟩

/-- `NumberGenerator._generate_numbers_for_location` (src/app.py:289-324):
for one location, either the single exact-suffix-4 number, the ten
exact-suffix-3 numbers (first free digit `0`-`9`), or the full expansion
over `range(10000)`. -/
def numbersForLocation (pfx sfx : String) (suffix_4 suffix_3 : Option String) :
    List String :=
  if isTruthy suffix_4 then
    [pfx ++ sfx ++ suffix_4.getD ""]
  else if isTruthy suffix_3 then
    "0123456789".data.map (fun d => pfx ++ sfx ++ ⟨[d]⟩ ++ suffix_3.getD "")
  else
    (List.range 10000).map (fun n => pfx ++ sfx ++ zfill4 n)

/-- `NumberGenerator.generate_numbers` (src/app.py:252-287), with the
database query's result supplied as `locations`: if no locations match,
return `[]`; otherwise extend `all_numbers` with each location's numbers,
then `list(set(all_numbers))` followed by `.sort()` — i.e. the ascending
enumeration of the distinct accumulated numbers (`dedup` removes the
duplicates as `set` does, `insertionSort (· ≤ ·)` puts the distinct
numbers in the ascending order `.sort()` produces). -/
def generate_numbers (pfx : String) (suffix suffix_3 : Option String)
    (locations : List Location) : List String :=
  if locations.isEmpty then []
  else
    let all_numbers :=
      (locations.map (fun loc => numbersForLocation pfx loc.suffix suffix suffix_3)).flatten
    all_numbers.dedup.insertionSort (· ≤ ·)

/-- Two-digit zero-padded rendering of `n < 100` (the fractional part of a
`"%.2f"` rendering). -/
def pad2 (n : Nat) : String :=
  if n < 10 then "0" ++ toString n else toString n

/-- `f"{v:.2f}"` where `v = n / d` exactly and `d > 0`: the decimal string
with two fractional digits nearest to `n / d`, ties to even.  Python's
float division by powers of 1024 is exact below 2^53, and its `"%.2f"`
formatting rounds the exact value half-to-even, which is what the natural
number computation below does. -/
def format2 (n d : Nat) : String :=
  let t := 100 * n
  let q := t / d
  let r := t % d
  let rounded :=
    if d < 2 * r then q + 1
    else if 2 * r < d then q
    else if q % 2 = 0 then q else q + 1
  toString (rounded / 100) ++ "." ++ pad2 (rounded % 100)

/-- `NumberGenerator._format_file_size` (src/app.py:349-363): divide by
1024 through `B, KB, MB, GB`, returning at the first unit where the scaled
value is below 1024, else render in `TB`. -/
def format_file_size (size : Nat) : String :=
  if size < 1024 then format2 size 1 ++ " B"
  else if size < 1024 ^ 2 then format2 size 1024 ++ " KB"
  else if size < 1024 ^ 3 then format2 size (1024 ^ 2) ++ " MB"
  else if size < 1024 ^ 4 then format2 size (1024 ^ 3) ++ " GB"
  else format2 size (1024 ^ 4) ++ " TB"

/-- `NumberGenerator.generate_to_file` (src/app.py:326-347): writes
`number + '\n'` for each number in order; the result is
`(written file content, (filename, byte size, formatted size))`.
The byte size is `os.path.getsize` of the file just written, i.e. the
UTF-8 length of its content. -/
def generate_to_file (numbers : List String) (filename : String) :
    String × String × Nat × String :=
  let content := concatStrings (numbers.map (· ++ "\n"))
  let file_size := utf8Len content
  (content, filename, file_size, format_file_size file_size)

/-- One element of the list returned by
`FileManager.split_file_for_download`: the dict
`{'name': ..., 'size': ..., 'url': ...}`. -/
structure PartInfo where
  name : String
  size : String
  url : String
deriving DecidableEq

/-- The inner `for _ in range(500000)` batch-reading loop of
`FileManager.split_file_for_download` (src/app.py:453-462): read lines
while iterations remain, appending each line and accumulating its UTF-8
byte length, and stop (with the just-appended line included) once the
accumulated size reaches `maxSize`.  Returns the batch read and the
remaining lines of the file.  `cnt` is the number of loop iterations
still allowed, `cur` the accumulated `current_size`. -/
def readBatch (maxSize : Nat) : List String → Nat → Nat → List String × List String
  | [], _, _ => ([], [])
  | l :: rest, cnt, cur =>
    if cnt = 0 then ([], l :: rest)
    else
      let newSize := cur + utf8Len l
      if maxSize ≤ newSize then ([l], rest)
      else
        let p := readBatch maxSize rest (cnt - 1) newSize
        (l :: p.1, p.2)

/-- The outer `while True` loop of `split_file_for_download`
(src/app.py:449-484): repeatedly read a batch (fresh `lines = []`,
`current_size = 0`, fresh `range(500000)`), stop when the batch is empty,
otherwise emit it as the next partition's lines.  `fuel` bounds the number
of iterations; each non-final iteration consumes at least one line, so
`lines.length + 1` fuel (as supplied by `splitBatches`) is never
exhausted. -/
def splitLoop (maxSize : Nat) : Nat → List String → List (List String)
  | 0, _ => []
  | fuel + 1, lines =>
    let p := readBatch maxSize lines 500000 0
    if p.1.isEmpty then [] else p.1 :: splitLoop maxSize fuel p.2

/-- The splitting branch of `split_file_for_download`: the sequence of
line-batches written out as partition files. -/
def splitBatches (maxSize : Nat) (lines : List String) : List (List String) :=
  splitLoop maxSize (lines.length + 1) lines

/-- Partition file name `f"part_{part_number}_{filename}"`. -/
def partName (n : Nat) (filename : String) : String :=
  "part_" ++ toString n ++ "_" ++ filename

/-- `FileManager.split_file_for_download` (src/app.py:417-486).  The
source file is `file?`: `none` when `os.path.exists` is false, otherwise
`some lines` with the file's lines (terminators included).  Returns the
list of file-info dicts the function returns, paired with the partition
files it writes (name and lines) — empty in the missing-file and
pass-through branches, which write nothing. -/
def split_file_for_download (filename : String) (file? : Option (List String))
    (max_size_mb : Nat) : List PartInfo × List (String × List String) :=
  match file? with
  | none => ([], [])
  | some lines =>
    let file_size := utf8Len (concatStrings lines)
    if file_size ≤ max_size_mb * 1024 * 1024 then
      ([⟨filename, format_file_size file_size, "/download/" ++ filename⟩], [])
    else
      let batches := splitBatches (max_size_mb * 1024 * 1024) lines
      ((batches.enumFrom 1).map (fun nb =>
          ⟨partName nb.1 filename,
           format_file_size (utf8Len (concatStrings nb.2)),
           "/download/" ++ partName nb.1 filename⟩),
       (batches.enumFrom 1).map (fun nb => (partName nb.1 filename, nb.2)))

/-- Outcome of the `api_generate` route, restricted to the engine's part
(input validation happens upstream). -/
inductive ApiOutcome where
  | notFound
  | overCapacity
  | success (count : Nat) (files : List PartInfo)
deriving DecidableEq

/-- The generation pipeline of the `api_generate` route
(src/app.py:760-813), from the `generate_numbers` call on: empty result →
404 `notFound`; `len(numbers) > max_count` → 400 `overCapacity`; otherwise
write the artifact, and split it when its size exceeds the limit.  The
second component lists every file written (name and content); the lines
handed to the splitter are the written artifact's lines
`number + '\n'` (the identifiers generated here are digit strings, so
each contains no newline of its own). -/
def api_generate_core (pfx : String) (suffix_4 suffix_3 : Option String)
    (locations : List Location) (max_count : Nat) (file_size_limit_mb : Nat)
    (filename : String) : ApiOutcome × List (String × String) :=
  let numbers := generate_numbers pfx suffix_4 suffix_3 locations
  if numbers.isEmpty then (.notFound, [])
  else if max_count < numbers.length then (.overCapacity, [])
  else
    let r := generate_to_file numbers filename
    let file_size_bytes := r.2.2.1
    if file_size_limit_mb * 1024 * 1024 < file_size_bytes then
      let s := split_file_for_download filename (some (numbers.map (· ++ "\n")))
        file_size_limit_mb
      (.success numbers.length s.1,
       (filename, r.1) :: s.2.map (fun w => (w.1, concatStrings w.2)))
    else
      (.success numbers.length [⟨filename, r.2.2.2, "/download/" ++ filename⟩],
       [(filename, r.1)])

/-- Splitting a character stream into its lines, dropping the `'\n'`
terminators; the final line may be unterminated.  Used to state that a
written file has one identifier per line. -/
def linesOf : List Char → List (List Char)
  | [] => []
  | c :: rest =>
    if c = '\n' then [] :: linesOf rest
    else
      match linesOf rest with
      | [] => [[c]]
      | l :: ls => (c :: l) :: ls

/-! ### Basic facts about byte sizes and concatenation -/

theorem utf8Len_append (a b : String) : utf8Len (a ++ b) = utf8Len a + utf8Len b := by
  simp [utf8Len, String.data_append]

theorem sizeLines_cons (a : String) (l : List String) :
    sizeLines (a :: l) = utf8Len a + sizeLines l := by
  simp [sizeLines]

theorem sizeLines_append (l₁ l₂ : List String) :
    sizeLines (l₁ ++ l₂) = sizeLines l₁ + sizeLines l₂ := by
  simp [sizeLines]

theorem concatStrings_go (l : List String) (acc : String) :
    l.foldl (· ++ ·) acc = acc ++ l.foldl (· ++ ·) "" := by
  induction l generalizing acc with
  | nil => simp [String.append_empty]
  | cons a l ih =>
    simp only [List.foldl_cons]
    rw [ih (acc ++ a), ih ("" ++ a), String.empty_append, String.append_assoc]

theorem concatStrings_cons (a : String) (l : List String) :
    concatStrings (a :: l) = a ++ concatStrings l := by
  simp only [concatStrings, List.foldl_cons]
  rw [concatStrings_go l ("" ++ a), String.empty_append]

theorem utf8Len_concat (l : List String) :
    utf8Len (concatStrings l) = sizeLines l := by
  induction l with
  | nil => rfl
  | cons a l ih => rw [concatStrings_cons, utf8Len_append, sizeLines_cons, ih]

theorem concatStrings_append (l₁ l₂ : List String) :
    concatStrings (l₁ ++ l₂) = concatStrings l₁ ++ concatStrings l₂ := by
  induction l₁ with
  | nil => simp [concatStrings, String.empty_append]
  | cons a l ih =>
    simp only [List.cons_append, concatStrings_cons, ih, String.append_assoc]

theorem concatStrings_flatten (l : List (List String)) :
    concatStrings (l.map concatStrings) = concatStrings l.flatten := by
  induction l with
  | nil => rfl
  | cons a l ih =>
    simp only [List.map_cons, List.flatten_cons, concatStrings_cons,
      concatStrings_append, ih]

/-! ### The batch-reading loop -/

/-- Reading a batch consumes a prefix of the file: batch and remainder
re-concatenate to the input lines. -/
theorem readBatch_append (m : Nat) (ls : List String) (cnt cur : Nat) :
    (readBatch m ls cnt cur).1 ++ (readBatch m ls cnt cur).2 = ls := by
  induction ls generalizing cnt cur with
  | nil => simp [readBatch]
  | cons l rest ih =>
    simp only [readBatch]
    split
    · simp
    · split
      · simp
      · simpa using ih (cnt - 1) _

/-- With iterations remaining and lines available, the batch is never
empty: the first line read is always included. -/
theorem readBatch_ne_nil {m : Nat} {ls : List String} {cnt cur : Nat}
    (h : ls ≠ []) (hc : cnt ≠ 0) : (readBatch m ls cnt cur).1 ≠ [] := by
  match ls with
  | [] => exact absurd rfl h
  | l :: rest =>
    simp only [readBatch, if_neg hc]
    split <;> simp

/-- The `range(500000)` bound: a batch never holds more lines than the
loop allows iterations. -/
theorem readBatch_length_le (m : Nat) (ls : List String) (cnt cur : Nat) :
    (readBatch m ls cnt cur).1.length ≤ cnt := by
  induction ls generalizing cnt cur with
  | nil => simp [readBatch]
  | cons l rest ih =>
    simp only [readBatch]
    split
    · simp
    · split
      · simpa using Nat.one_le_iff_ne_zero.mpr (by assumption)
      · have := ih (cnt - 1) (cur + utf8Len l)
        simp only [List.length_cons]
        omega

/-- The size check runs only after a complete line is appended: every
proper prefix of a batch (here: everything before the final line) stays
strictly below the budget, counting the size already accumulated. -/
theorem readBatch_prefix_size {m : Nat} {ls : List String} {cnt cur : Nat}
    (hcur : cur < m) (init : List String) (last : String)
    (h : (readBatch m ls cnt cur).1 = init ++ [last]) :
    cur + sizeLines init < m := by
  induction ls generalizing cnt cur init with
  | nil =>
    simp only [readBatch] at h
    exact absurd h.symm (List.append_ne_nil_of_right_ne_nil _ (by simp))
  | cons l rest ih =>
    simp only [readBatch] at h
    split at h
    · exact absurd h.symm (List.append_ne_nil_of_right_ne_nil _ (by simp))
    · split at h
      · -- batch = [l]
        match init with
        | [] => simpa [sizeLines] using hcur
        | a :: init' =>
          simp only [List.cons_append, List.cons.injEq] at h
          exact absurd h.2.symm (List.append_ne_nil_of_right_ne_nil _ (by simp))
      · -- batch = l :: recursive batch
        rename_i hsize
        have hlt : cur + utf8Len l < m := by omega
        match init with
        | [] => simpa [sizeLines] using hcur
        | a :: init' =>
          simp only [List.cons_append, List.cons.injEq] at h
          have := ih hlt init' h.2
          rw [sizeLines_cons, ← h.1]
          omega

/-! ### The outer partition loop -/

/-- With enough fuel (one more than the number of lines, as `splitBatches`
supplies), the emitted batches concatenate back to the whole file. -/
theorem splitLoop_flatten (m : Nat) (fuel : Nat) (lines : List String)
    (h : lines.length < fuel) : (splitLoop m fuel lines).flatten = lines := by
  induction fuel generalizing lines with
  | zero => omega
  | succ fuel ih =>
    simp only [splitLoop]
    by_cases hb : (readBatch m lines 500000 0).1.isEmpty
    · have hnil : lines = [] := by
        by_contra hne
        exact readBatch_ne_nil hne (by omega) (List.isEmpty_iff.mp hb)
      subst hnil
      simp [readBatch]
    · rw [if_neg (by simp [hb])]
      have happ := readBatch_append m lines 500000 0
      have hne : (readBatch m lines 500000 0).1 ≠ [] := by
        simpa [List.isEmpty_iff] using hb
      have hlen : (readBatch m lines 500000 0).2.length < lines.length := by
        have := congrArg List.length happ
        simp only [List.length_append] at this
        have h1 : 0 < (readBatch m lines 500000 0).1.length :=
          List.length_pos.mpr hne
        omega
      rw [List.flatten_cons, ih _ (by omega), happ]

/-- Every batch emitted by the loop is some result of the inner reader
started on a fresh buffer (`current_size = 0`, full `range(500000)`). -/
theorem splitLoop_mem {m fuel : Nat} {lines b : List String}
    (hb : b ∈ splitLoop m fuel lines) :
    ∃ ls, b = (readBatch m ls 500000 0).1 := by
  induction fuel generalizing lines with
  | zero => simp [splitLoop] at hb
  | succ fuel ih =>
    simp only [splitLoop] at hb
    split at hb
    · simp at hb
    · rcases List.mem_cons.mp hb with h | h
      · exact ⟨lines, h⟩
      · exact ih h

/-- Batches are only emitted after passing the `if not lines: break`
guard, so none is empty. -/
theorem splitLoop_mem_ne_nil {m fuel : Nat} {lines b : List String}
    (hb : b ∈ splitLoop m fuel lines) : b ≠ [] := by
  induction fuel generalizing lines with
  | zero => simp [splitLoop] at hb
  | succ fuel ih =>
    simp only [splitLoop] at hb
    split at hb
    · simp at hb
    · rcases List.mem_cons.mp hb with h | h
      · subst h
        rename_i hcond
        intro hnil
        exact hcond (by simp [hnil])
      · exact ih h

theorem splitBatches_flatten (m : Nat) (lines : List String) :
    (splitBatches m lines).flatten = lines :=
  splitLoop_flatten m _ lines (Nat.lt_succ_self _)

/-- In the splitting branch, the partition files written are exactly the
batches, in order. -/
theorem split_writes_eq (filename : String) (lines : List String) (mb : Nat)
    (h : mb * 1024 * 1024 < utf8Len (concatStrings lines)) :
    (split_file_for_download filename (some lines) mb).2.map Prod.snd =
      splitBatches (mb * 1024 * 1024) lines := by
  simp only [split_file_for_download, if_neg (Nat.not_le.mpr h)]
  rw [List.map_map]
  exact List.enumFrom_map_snd 1 _

/-! ### Claims about the partitioner -/

/-- C1: for every artifact whose byte size exceeds the partition budget,
the splitting branch of `split_file_for_download` produces partitions
whose concatenation in sequence order reproduces the source artifact's
lines exactly — the written partitions' line lists flatten to the source's
line list, and the partitions' contents concatenate byte-for-byte to the
source content (line terminators included), so no line is truncated,
duplicated, or split across two partitions. -/
theorem C1_split_roundtrip (filename : String) (lines : List String) (mb : Nat)
    (h : mb * 1024 * 1024 < utf8Len (concatStrings lines)) :
    (((split_file_for_download filename (some lines) mb).2.map Prod.snd).flatten
        = lines) ∧
    (concatStrings (((split_file_for_download filename (some lines) mb).2.map
        Prod.snd).map concatStrings) = concatStrings lines) := by
  rw [split_writes_eq filename lines mb h]
  refine ⟨splitBatches_flatten _ _, ?_⟩
  rw [concatStrings_flatten, splitBatches_flatten]

/-- Witness for C1 at a concrete over-budget artifact. -/
theorem C1_split_roundtrip_witness :
    (((split_file_for_download "f.txt" (some ["123\x0a"]) 0).2.map
        Prod.snd).flatten = ["123\x0a"]) ∧
    (concatStrings (((split_file_for_download "f.txt" (some ["123\x0a"]) 0).2.map
        Prod.snd).map concatStrings) = concatStrings ["123\x0a"]) :=
  C1_split_roundtrip "f.txt" ["123\x0a"] 0 (by decide)

/-- C2: every batch emitted by the splitting branch holds at most 500000
lines, and because the byte-size check runs only after a complete line is
appended, everything before the final line of a batch is strictly below
`maxPartBytes`; hence a batch exceeds the budget by at most the encoded
byte length of the one line that triggered the flush.  Whichever bound
(bytes or line count) is hit first closes the partition. -/
theorem C2_partition_bounds (m : Nat) (hm : 0 < m) (lines : List String)
    (b : List String) (hb : b ∈ splitBatches m lines) :
    b.length ≤ 500000 ∧
    ∀ init last, b = init ++ [last] →
      sizeLines init < m ∧ sizeLines b ≤ m + utf8Len last := by
  obtain ⟨ls, rfl⟩ := splitLoop_mem hb
  refine ⟨readBatch_length_le m ls 500000 0, ?_⟩
  intro init last heq
  have h1 : (0 : Nat) + sizeLines init < m :=
    readBatch_prefix_size hm init last heq
  refine ⟨by omega, ?_⟩
  rw [heq, sizeLines_append, sizeLines_cons]
  have h0 : sizeLines ([] : List String) = 0 := rfl
  omega

/-- Witness for C2: a concrete batch from a split with budget 5. -/
theorem C2_partition_bounds_witness :
    (["123\x0a", "456\x0a"] : List String).length ≤ 500000 ∧
    ∀ init last, (["123\x0a", "456\x0a"] : List String) = init ++ [last] →
      sizeLines init < 5 ∧ sizeLines ["123\x0a", "456\x0a"] ≤ 5 + utf8Len last :=
  C2_partition_bounds 5 (by decide) ["123\x0a", "456\x0a", "789\x0a"]
    ["123\x0a", "456\x0a"] (by decide)

/-- C10: the splitting branch never emits an empty partition — every
batch contains at least one line, because the outer loop terminates on an
empty read batch before creating the next partition file. -/
theorem C10_no_empty_partition (m : Nat) (lines : List String)
    (b : List String) (hb : b ∈ splitBatches m lines) : b ≠ [] :=
  splitLoop_mem_ne_nil hb

/-- Witness for C10 at a source whose line count aligns exactly with the
byte-budget boundary (the single line's 4 bytes reach the budget 4): the
one emitted partition is nonempty and no empty partition follows. -/
theorem C10_no_empty_partition_witness :
    (["123\x0a"] : List String) ≠ [] :=
  C10_no_empty_partition 4 ["123\x0a"] ["123\x0a"] (by decide)

/-- C7 counterexample: for a source artifact that does not exist
(`os.path.exists` false), `split_file_for_download` returns the plain
empty list — the same shape as an ordinary return value — and raises no
`SourceUnreadable`-style error; the claim that a failure is reported to
the caller (rather than an empty partition list being returned silently)
is false.  The route `api_generate` then reports `files: []` inside a
`code 200` success response. -/
theorem C7_counterexample :
    split_file_for_download "a.txt" none 20 = ([], []) := rfl

/-- C7 amended: if the source artifact cannot be opened because it does
not exist, the operation silently returns an empty partition list and
writes nothing; no error outcome is produced.  Emptiness is nevertheless
distinguishable from success, because for an existing source the returned
list is never empty (one pass-through entry, or at least one partition in
the splitting branch). -/
theorem C7_missing_source (filename : String) (mb : Nat)
    (file? : Option (List String)) :
    (file? = none → split_file_for_download filename file? mb = ([], [])) ∧
    (∀ lines, file? = some lines →
      (split_file_for_download filename file? mb).1 ≠ []) := by
  constructor
  · rintro rfl
    rfl
  · rintro lines rfl
    simp only [split_file_for_download]
    split
    · simp
    · rename_i hgt
      have hlt : mb * 1024 * 1024 < utf8Len (concatStrings lines) :=
        Nat.not_le.mp hgt
      have hne : lines ≠ [] := by
        rintro rfl
        simp [concatStrings, utf8Len] at hlt
      simp only [ne_eq, List.map_eq_nil_iff]
      intro hbat
      have hbat' : splitBatches (mb * 1024 * 1024) lines = [] := by
        have := congrArg List.length hbat
        simpa using List.length_eq_zero.mp (by simpa using this)
      have h1 : (readBatch (mb * 1024 * 1024) lines 500000 0).1 ≠ [] :=
        readBatch_ne_nil hne (by omega)
      have : splitBatches (mb * 1024 * 1024) lines ≠ [] := by
        simp only [splitBatches, splitLoop]
        rw [if_neg (by simpa [List.isEmpty_iff] using h1)]
        simp
      exact this hbat'

/-- Witness for C7's amended statement: a missing source yields the bare
empty list; an existing one-line source yields a nonempty list. -/
theorem C7_missing_source_witness :
    split_file_for_download "a.txt" none 20 = ([], []) ∧
    (split_file_for_download "b.txt" (some ["1\x0a"]) 20).1 ≠ [] :=
  ⟨(C7_missing_source "a.txt" 20 none).1 rfl,
   (C7_missing_source "b.txt" 20 (some ["1\x0a"])).2 ["1\x0a"] rfl⟩

/-- C8 counterexample: a zero-byte artifact (zero lines) has size
`0 ≤ maxPartBytes`, so it takes the pass-through branch and the operation
returns ONE descriptor (wrapping the original artifact), not the zero
partitions the claim states. -/
theorem C8_counterexample :
    (split_file_for_download "f.txt" (some []) 20).1 =
      [⟨"f.txt", "0.00 B", "/download/f.txt"⟩] := by decide

/-- C8 amended: an artifact with zero lines does not raise an error, but
it yields one pass-through descriptor referencing the original artifact
(and no partition file is written) rather than zero partitions; the
splitting loop itself, on an empty line list, emits zero batches. -/
theorem C8_empty_file (filename : String) (mb : Nat) :
    split_file_for_download filename (some []) mb =
      ([⟨filename, format_file_size 0, "/download/" ++ filename⟩], []) ∧
    ∀ m, splitBatches m [] = [] := by
  refine ⟨?_, fun m => rfl⟩
  simp [split_file_for_download, concatStrings, utf8Len]

/-! ### Digit characters and `zfill4` -/

theorem digitChar_inj :
    ∀ a, a < 10 → ∀ b, b < 10 → Nat.digitChar a = Nat.digitChar b → a = b := by
  decide

theorem digitChar_lt :
    ∀ a, a < 10 → ∀ b, b < 10 → a < b → Nat.digitChar a < Nat.digitChar b := by
  decide

theorem digitChar_isDigit : ∀ a, a < 10 → (Nat.digitChar a).isDigit = true := by
  decide

theorem zfill4_inj {a b : Nat} (ha : a < 10000) (hb : b < 10000)
    (h : zfill4 a = zfill4 b) : a = b := by
  have hd := congrArg String.data h
  simp only [zfill4] at hd
  obtain ⟨h1, h2, h3, h4⟩ : Nat.digitChar (a / 1000 % 10) = Nat.digitChar (b / 1000 % 10) ∧
      Nat.digitChar (a / 100 % 10) = Nat.digitChar (b / 100 % 10) ∧
      Nat.digitChar (a / 10 % 10) = Nat.digitChar (b / 10 % 10) ∧
      Nat.digitChar (a % 10) = Nat.digitChar (b % 10) := by
    simpa using hd
  have e1 := digitChar_inj _ (Nat.mod_lt _ (by omega)) _ (Nat.mod_lt _ (by omega)) h1
  have e2 := digitChar_inj _ (Nat.mod_lt _ (by omega)) _ (Nat.mod_lt _ (by omega)) h2
  have e3 := digitChar_inj _ (Nat.mod_lt _ (by omega)) _ (Nat.mod_lt _ (by omega)) h3
  have e4 := digitChar_inj _ (Nat.mod_lt _ (by omega)) _ (Nat.mod_lt _ (by omega)) h4
  omega

/-- Numeric order on `0 ≤ a < b < 10000` is lexicographic order on the
four zero-padded digit characters. -/
theorem zfill4_lex {a b : Nat} (hb : b < 10000) (hab : a < b) :
    List.Lex (· < ·) (zfill4 a).data (zfill4 b).data := by
  have ha : a < 10000 := Nat.lt_trans hab hb
  show List.Lex (· < ·)
    [Nat.digitChar (a / 1000 % 10), Nat.digitChar (a / 100 % 10),
     Nat.digitChar (a / 10 % 10), Nat.digitChar (a % 10)]
    [Nat.digitChar (b / 1000 % 10), Nat.digitChar (b / 100 % 10),
     Nat.digitChar (b / 10 % 10), Nat.digitChar (b % 10)]
  rcases Nat.lt_trichotomy (a / 1000 % 10) (b / 1000 % 10) with h1 | h1 | h1
  · exact .rel (digitChar_lt _ (Nat.mod_lt _ (by omega)) _ (Nat.mod_lt _ (by omega)) h1)
  · rw [h1]
    refine .cons ?_
    rcases Nat.lt_trichotomy (a / 100 % 10) (b / 100 % 10) with h2 | h2 | h2
    · exact .rel (digitChar_lt _ (Nat.mod_lt _ (by omega)) _ (Nat.mod_lt _ (by omega)) h2)
    · rw [h2]
      refine .cons ?_
      rcases Nat.lt_trichotomy (a / 10 % 10) (b / 10 % 10) with h3 | h3 | h3
      · exact .rel (digitChar_lt _ (Nat.mod_lt _ (by omega)) _ (Nat.mod_lt _ (by omega)) h3)
      · rw [h3]
        refine .cons ?_
        have h4 : a % 10 < b % 10 := by omega
        exact .rel (digitChar_lt _ (Nat.mod_lt _ (by omega)) _ (Nat.mod_lt _ (by omega)) h4)
      · exact absurd h3 (by omega)
    · exact absurd h2 (by omega)
  · exact absurd h1 (by omega)

/-- Strings sharing a common head compare by their tails; the full
expansion's numbers therefore increase strictly with the local block. -/
theorem expansion_lt (pfx sfx : String) {a b : Nat} (hb : b < 10000)
    (hab : a < b) : pfx ++ sfx ++ zfill4 a < pfx ++ sfx ++ zfill4 b := by
  rw [String.lt_iff_toList_lt]
  have hlex : List.Lex (· < ·) (pfx ++ sfx ++ zfill4 a).data
      (pfx ++ sfx ++ zfill4 b).data := by
    simp only [String.data_append]
    exact List.Lex.append_left _ (zfill4_lex hb hab) _
  exact hlex

/-! ### The full expansion of one location -/

theorem fullExpansion_eq (pfx sfx : String) :
    numbersForLocation pfx sfx none none =
      (List.range 10000).map (fun n => pfx ++ sfx ++ zfill4 n) := rfl

theorem fullExpansion_nodup (pfx sfx : String) :
    (numbersForLocation pfx sfx none none).Nodup := by
  rw [fullExpansion_eq]
  refine List.Nodup.map_on ?_ (List.nodup_range 10000)
  intro a ha b hb h
  rw [List.mem_range] at ha hb
  have hd := congrArg String.data h
  simp only [String.data_append] at hd
  have := List.append_cancel_left hd
  exact zfill4_inj ha hb (String.ext this)

theorem fullExpansion_length (pfx sfx : String) :
    (numbersForLocation pfx sfx none none).length = 10000 := by
  rw [fullExpansion_eq, List.length_map, List.length_range]

theorem fullExpansion_sorted (pfx sfx : String) :
    List.Sorted (· < ·) (numbersForLocation pfx sfx none none) := by
  rw [fullExpansion_eq]
  rw [List.Sorted, List.pairwise_map]
  refine (List.pairwise_lt_range 10000).imp_of_mem ?_
  intro a b ha hb hab
  rw [List.mem_range] at hb
  exact expansion_lt pfx sfx hb hab

/-! ### Sorting distinct elements -/

/-- Sorting a duplicate-free list ascending yields a strictly ascending
list (the composite behaviour of `list(set(...))` + `.sort()`). -/
theorem insertionSort_sorted_lt {α : Type*} [LinearOrder α] {l : List α}
    (hn : l.Nodup) : List.Sorted (· < ·) (l.insertionSort (· ≤ ·)) := by
  have hs : List.Sorted (· ≤ ·) (l.insertionSort (· ≤ ·)) :=
    List.sorted_insertionSort _ l
  have hn' : (l.insertionSort (· ≤ ·)).Nodup :=
    (List.perm_insertionSort (· ≤ ·) l).nodup_iff.mpr hn
  exact (hs.and hn').imp fun h => lt_of_le_of_ne h.1 h.2

theorem generate_numbers_sorted (pfx : String) (s4 s3 : Option String)
    (locs : List Location) :
    List.Sorted (· < ·) (generate_numbers pfx s4 s3 locs) := by
  unfold generate_numbers
  split
  · exact List.sorted_nil
  · exact insertionSort_sorted_lt (List.nodup_dedup _)

/-- Two locations sharing `prefix+suffix` contribute 20000 raw numbers
but only 10000 distinct ones survive dedup. -/
theorem generate_numbers_two_eq (pfx : String) (l₁ l₂ : Location)
    (hsuf : l₁.suffix = l₂.suffix) :
    (generate_numbers pfx none none [l₁, l₂]).length = 10000 := by
  unfold generate_numbers
  rw [if_neg (by simp)]
  have hL : numbersForLocation pfx l₂.suffix none none =
      numbersForLocation pfx l₁.suffix none none := by rw [hsuf]
  simp only [List.map_cons, List.map_nil, List.flatten_cons, List.flatten_nil,
    List.append_nil, hL]
  rw [(List.perm_insertionSort (· ≤ ·) _).length_eq]
  rw [← List.card_toFinset, List.toFinset_append, Finset.union_self,
    List.toFinset_card_of_nodup (fullExpansion_nodup _ _), fullExpansion_length]

/-! ### Claims about generation -/

/-- C4: for every filter and non-empty location list, `generate_numbers`
is strictly ascending in string (code point) order — hence duplicate-free
— and two location records with identical `prefix+suffix` under full
expansion contribute exactly 10000 identifiers in total, not 20000. -/
theorem C4_generate_sorted_dedup (pfx : String) (s4 s3 : Option String)
    (locs : List Location) (hne : locs ≠ []) :
    List.Sorted (· < ·) (generate_numbers pfx s4 s3 locs) ∧
    (∀ l₁ l₂ : Location, locs = [l₁, l₂] → l₁.suffix = l₂.suffix →
      s4 = none → s3 = none →
      (generate_numbers pfx s4 s3 locs).length = 10000) := by
  refine ⟨generate_numbers_sorted pfx s4 s3 locs, ?_⟩
  rintro l₁ l₂ rfl hsuf rfl rfl
  exact generate_numbers_two_eq pfx l₁ l₂ hsuf

/-- Witness for C4: two locations sharing prefix+suffix `135`, `0001`. -/
theorem C4_generate_sorted_dedup_witness :
    List.Sorted (· < ·) (generate_numbers "135" none none
      [⟨"135", "0001", "p", "c", 1⟩, ⟨"135", "0001", "p", "d", 2⟩]) ∧
    (∀ l₁ l₂ : Location,
      ([⟨"135", "0001", "p", "c", 1⟩, ⟨"135", "0001", "p", "d", 2⟩] :
        List Location) = [l₁, l₂] →
      l₁.suffix = l₂.suffix → (none : Option String) = none →
      (none : Option String) = none →
      (generate_numbers "135" none none
        [⟨"135", "0001", "p", "c", 1⟩, ⟨"135", "0001", "p", "d", 2⟩]).length
        = 10000) :=
  C4_generate_sorted_dedup "135" none none
    [⟨"135", "0001", "p", "c", 1⟩, ⟨"135", "0001", "p", "d", 2⟩] (by decide)

/-- C3: the `api_generate` pipeline rejects a request exactly when the
post-dedup identifier count exceeds `max_count`: in that case it returns
the over-capacity outcome having written no file at all, and whenever the
deduplicated count is within bounds the over-capacity outcome is never
produced (so the check is on the deduplicated, not pre-dedup, count). -/
theorem C3_over_capacity (pfx : String) (s4 s3 : Option String)
    (locs : List Location) (maxCount limitMB : Nat) (filename : String) :
    (maxCount < (generate_numbers pfx s4 s3 locs).length →
      api_generate_core pfx s4 s3 locs maxCount limitMB filename =
        (.overCapacity, [])) ∧
    ((generate_numbers pfx s4 s3 locs).length ≤ maxCount →
      (api_generate_core pfx s4 s3 locs maxCount limitMB filename).1 ≠
        .overCapacity) := by
  constructor
  · intro h
    have hne : ¬ ((generate_numbers pfx s4 s3 locs).isEmpty = true) := by
      rw [List.isEmpty_iff]
      intro hnil
      rw [hnil] at h
      simp at h
    simp only [api_generate_core]
    rw [if_neg hne, if_pos h]
  · intro h
    simp only [api_generate_core]
    split
    · simp
    · rw [if_neg (Nat.not_lt.mpr h)]
      split <;> simp

/-- Witness for C3: a single exact-suffix request with `max_count = 0`
fails over capacity with no file written, while two duplicate segments
(post-dedup count 10000, pre-dedup 20000) pass under
`max_count = 10000`. -/
theorem C3_over_capacity_witness :
    api_generate_core "135" (some "1234") none
      [⟨"135", "0000", "p", "c", 1⟩] 0 20 "f.txt" = (.overCapacity, []) ∧
    (api_generate_core "135" none none
      [⟨"135", "0001", "p", "c", 1⟩, ⟨"135", "0001", "p", "d", 2⟩]
      10000 20 "g.txt").1 ≠ .overCapacity :=
  ⟨(C3_over_capacity "135" (some "1234") none [⟨"135", "0000", "p", "c", 1⟩]
      0 20 "f.txt").1 (by decide),
   (C3_over_capacity "135" none none
      [⟨"135", "0001", "p", "c", 1⟩, ⟨"135", "0001", "p", "d", 2⟩]
      10000 20 "g.txt").2
    (le_of_eq (generate_numbers_two_eq "135" ⟨"135", "0001", "p", "c", 1⟩
      ⟨"135", "0001", "p", "d", 2⟩ rfl))⟩

/-- C5: full expansion of a segment with 3-digit prefix and 4-digit
suffix and no exact suffix yields exactly 10000 distinct 11-digit
identifiers, all extending the same 7-digit `prefix+suffix` head, in
strictly ascending order, with the trailing block being the zero-padded
digits of every `n` in `0000`–`9999` — no gaps, no repeats. -/
theorem C5_full_expansion (pfx sfx : String)
    (hp : pfx.data.length = 3 ∧ ∀ c ∈ pfx.data, c.isDigit)
    (hs : sfx.data.length = 4 ∧ ∀ c ∈ sfx.data, c.isDigit) :
    (numbersForLocation pfx sfx none none).length = 10000 ∧
    (numbersForLocation pfx sfx none none).Nodup ∧
    List.Sorted (· < ·) (numbersForLocation pfx sfx none none) ∧
    (∀ x ∈ numbersForLocation pfx sfx none none,
      x.data.length = 11 ∧ (∀ c ∈ x.data, c.isDigit) ∧
      ∃ t, x = pfx ++ sfx ++ t) ∧
    (∀ n, n < 10000 →
      pfx ++ sfx ++ zfill4 n ∈ numbersForLocation pfx sfx none none) ∧
    (∀ x ∈ numbersForLocation pfx sfx none none,
      ∃ n, n < 10000 ∧ x = pfx ++ sfx ++ zfill4 n) := by
  refine ⟨fullExpansion_length pfx sfx, fullExpansion_nodup pfx sfx,
    fullExpansion_sorted pfx sfx, ?_, ?_, ?_⟩
  · intro x hx
    rw [fullExpansion_eq] at hx
    obtain ⟨n, hn, rfl⟩ := List.mem_map.mp hx
    rw [List.mem_range] at hn
    refine ⟨?_, ?_, zfill4 n, rfl⟩
    · have h4 : (zfill4 n).data.length = 4 := rfl
      simp only [String.data_append, List.length_append, hp.1, hs.1, h4]
    · intro c hc
      simp only [String.data_append, List.mem_append] at hc
      rcases hc with (hc | hc) | hc
      · exact hp.2 c hc
      · exact hs.2 c hc
      · have : c ∈ [Nat.digitChar (n / 1000 % 10), Nat.digitChar (n / 100 % 10),
            Nat.digitChar (n / 10 % 10), Nat.digitChar (n % 10)] := hc
        simp only [List.mem_cons, List.not_mem_nil, or_false] at this
        rcases this with rfl | rfl | rfl | rfl <;>
          exact digitChar_isDigit _ (Nat.mod_lt _ (by omega))
  · intro n hn
    rw [fullExpansion_eq]
    exact List.mem_map.mpr ⟨n, List.mem_range.mpr hn, rfl⟩
  · intro x hx
    rw [fullExpansion_eq] at hx
    obtain ⟨n, hn, rfl⟩ := List.mem_map.mp hx
    exact ⟨n, List.mem_range.mp hn, rfl⟩

/-- Witness for C5 at prefix `135`, suffix `0123`. -/
theorem C5_full_expansion_witness :
    (numbersForLocation "135" "0123" none none).length = 10000 ∧
    (numbersForLocation "135" "0123" none none).Nodup ∧
    List.Sorted (· < ·) (numbersForLocation "135" "0123" none none) ∧
    (∀ x ∈ numbersForLocation "135" "0123" none none,
      x.data.length = 11 ∧ (∀ c ∈ x.data, c.isDigit) ∧
      ∃ t, x = "135" ++ "0123" ++ t) ∧
    (∀ n, n < 10000 →
      "135" ++ "0123" ++ zfill4 n ∈ numbersForLocation "135" "0123" none none) ∧
    (∀ x ∈ numbersForLocation "135" "0123" none none,
      ∃ n, n < 10000 ∧ x = "135" ++ "0123" ++ zfill4 n) :=
  C5_full_expansion "135" "0123" (by decide) (by decide)

/-! ### The artifact writer -/

theorem linesOf_newline_append (xs rest : List Char) (hx : Char.ofNat 10 ∉ xs) :
    linesOf (xs ++ Char.ofNat 10 :: rest) = xs :: linesOf rest := by
  induction xs with
  | nil => simp [linesOf]
  | cons c cs ih =>
    have hc : ¬ (c = Char.ofNat 10) := fun e => hx (e ▸ List.mem_cons_self c cs)
    have hcs : Char.ofNat 10 ∉ cs := fun m => hx (List.mem_cons_of_mem _ m)
    simp only [List.cons_append, linesOf, if_neg hc, List.append_eq, ih hcs]

/-- Round trip of the writer: parsing the written content back into lines
recovers exactly the identifier sequence, in order — one identifier per
line, each terminated by a single newline. -/
theorem linesOf_content (numbers : List String)
    (h : ∀ x ∈ numbers, Char.ofNat 10 ∉ x.data) :
    linesOf (concatStrings (numbers.map (· ++ "\x0a"))).data =
      numbers.map String.data := by
  induction numbers with
  | nil => rfl
  | cons x xs ih =>
    rw [List.map_cons, concatStrings_cons, String.data_append, List.map_cons]
    have hnl : ("\x0a" : String).data = [Char.ofNat 10] := rfl
    rw [String.data_append, hnl, List.append_assoc, List.singleton_append,
      linesOf_newline_append _ _ (h x (List.mem_cons_self x xs)),
      ih (fun y hy => h y (List.mem_cons_of_mem x hy))]

/-! ### Claims about the writer -/

/-- C6 counterexample: `generate_to_file` returns
`(filename, byte size, human-readable size)` — it does not return the
line count the claim requires.  At the three-identifier input below, the
written file has 3 lines, yet the complete return value is
`("f.txt", 12, "12.00 B")` (alongside the written content): the only
numeric component is the byte size 12, and 12 ≠ 3, so the line count is
not among the returned values. -/
theorem C6_counterexample :
    generate_to_file ["123", "456", "789"] "f.txt" =
      ("123\x0a456\x0a789\x0a", "f.txt", 12, "12.00 B") ∧
    (["123", "456", "789"] : List String).length = 3 ∧ (12 : Nat) ≠ 3 := by
  decide

/-- C6 amended: `generate_to_file` writes one identifier per line, each
terminated by a single newline, in the given order (parsing the written
content back into lines recovers the identifier sequence exactly), and
returns the file name, the final observed byte size of the written file,
and its human-readable rendering — but not the line count. -/
theorem C6_write_contract (numbers : List String) (filename : String)
    (h : ∀ x ∈ numbers, Char.ofNat 10 ∉ x.data) :
    linesOf (generate_to_file numbers filename).1.data =
      numbers.map String.data ∧
    (generate_to_file numbers filename).2.1 = filename ∧
    (generate_to_file numbers filename).2.2.1 =
      sizeLines (numbers.map (· ++ "\x0a")) ∧
    (generate_to_file numbers filename).2.2.2 =
      format_file_size ((generate_to_file numbers filename).2.2.1) := by
  refine ⟨linesOf_content numbers h, rfl, ?_, rfl⟩
  show utf8Len (concatStrings (numbers.map (· ++ "\x0a"))) = _
  exact utf8Len_concat _

/-- Witness for C6's amended statement at a single identifier. -/
theorem C6_write_contract_witness :
    linesOf (generate_to_file ["123"] "f.txt").1.data =
      (["123"] : List String).map String.data ∧
    (generate_to_file ["123"] "f.txt").2.1 = "f.txt" ∧
    (generate_to_file ["123"] "f.txt").2.2.1 =
      sizeLines ((["123"] : List String).map (· ++ "\x0a")) ∧
    (generate_to_file ["123"] "f.txt").2.2.2 =
      format_file_size ((generate_to_file ["123"] "f.txt").2.2.1) :=
  C6_write_contract ["123"] "f.txt" (by decide)

/-! ### The size formatter -/

/-- Unit label (with its separating space) written by `_format_file_size`
after `k` divisions by 1024. -/
def unitLabel : Nat → String
  | 0 => " B"
  | 1 => " KB"
  | 2 => " MB"
  | 3 => " GB"
  | _ => " TB"

/-- C9: `_format_file_size` scales the byte count by the first power of
1024 that brings it below 1024 (capping at `TB`, the fourth division,
when it never drops below), renders it with two decimal places, and
produces the unit names `B, KB, MB, GB, TB` in order; in particular
`format(500) = "500.00 B"`, `format(2048) = "2.00 KB"` and
`format(3*1024*1024) = "3.00 MB"`. -/
theorem C9_format_file_size (size : Nat) :
    (∃ k, k ≤ 4 ∧
      format_file_size size = format2 size (1024 ^ k) ++ unitLabel k ∧
      (k < 4 → size < 1024 ^ (k + 1)) ∧
      (∀ j, j < k → 1024 ^ (j + 1) ≤ size)) ∧
    format_file_size 500 = "500.00 B" ∧
    format_file_size 2048 = "2.00 KB" ∧
    format_file_size (1024 * 1024 * 3) = "3.00 MB" := by
  refine ⟨?_, by decide, by decide, by decide⟩
  by_cases c1 : size < 1024
  · exact ⟨0, by omega, by norm_num [format_file_size, c1, unitLabel],
      fun _ => by simpa using c1, by omega⟩
  · have g1 : 1024 ^ 1 ≤ size := by simpa using Nat.not_lt.mp c1
    by_cases c2 : size < 1048576
    · have hb : size < 1024 ^ 2 := by
        rw [show (1024 : Nat) ^ 2 = 1048576 from by norm_num]
        exact c2
      refine ⟨1, by omega, by norm_num [format_file_size, c1, c2, unitLabel],
        fun _ => by simpa using hb, ?_⟩
      intro j hj
      interval_cases j
      exact g1
    · have g2 : 1024 ^ 2 ≤ size := by
        rw [show (1024 : Nat) ^ 2 = 1048576 from by norm_num]
        exact Nat.not_lt.mp c2
      by_cases c3 : size < 1073741824
      · have hb : size < 1024 ^ 3 := by
          rw [show (1024 : Nat) ^ 3 = 1073741824 from by norm_num]
          exact c3
        refine ⟨2, by omega,
          by norm_num [format_file_size, c1, c2, c3, unitLabel],
          fun _ => by simpa using hb, ?_⟩
        intro j hj
        interval_cases j
        · exact g1
        · exact g2
      · have g3 : 1024 ^ 3 ≤ size := by
          rw [show (1024 : Nat) ^ 3 = 1073741824 from by norm_num]
          exact Nat.not_lt.mp c3
        by_cases c4 : size < 1099511627776
        · have hb : size < 1024 ^ 4 := by
            rw [show (1024 : Nat) ^ 4 = 1099511627776 from by norm_num]
            exact c4
          refine ⟨3, by omega,
            by norm_num [format_file_size, c1, c2, c3, c4, unitLabel],
            fun _ => by simpa using hb, ?_⟩
          intro j hj
          interval_cases j
          · exact g1
          · exact g2
          · exact g3
        · have g4 : 1024 ^ 4 ≤ size := by
            rw [show (1024 : Nat) ^ 4 = 1099511627776 from by norm_num]
            exact Nat.not_lt.mp c4
          refine ⟨4, le_refl 4,
            by norm_num [format_file_size, c1, c2, c3, c4, unitLabel],
            by omega, ?_⟩
          intro j hj
          interval_cases j
          · exact g1
          · exact g2
          · exact g3
          · exact g4

/-- Witness for C9 at size 2048. -/
theorem C9_format_file_size_witness :
    (∃ k, k ≤ 4 ∧
      format_file_size 2048 = format2 2048 (1024 ^ k) ++ unitLabel k ∧
      (k < 4 → 2048 < 1024 ^ (k + 1)) ∧
      (∀ j, j < k → 1024 ^ (j + 1) ≤ 2048)) ∧
    format_file_size 500 = "500.00 B" ∧
    format_file_size 2048 = "2.00 KB" ∧
    format_file_size (1024 * 1024 * 3) = "3.00 MB" :=
  C9_format_file_size 2048

end PhoneGen
